import Mathlib

/-!
Shallow embedding of the documentation-comment parsing and rendering engine
of gdexport (src/extractdocvisitor.cpp together with the declarations of its
header): the paragraph model, the XML escaper, the reference resolver, the
inline-command expander, the comment classifier (ParsedDocumentation) and
the renderer (Write / WriteSingleLine / WriteVerbatim).

Strings are modelled as lists of characters.  Two loops of the source scan
with moving cursors (the escape loop and the paragraph-writing loop with
its merge lookahead); those are modelled with an explicit fuel argument so
that every definition stays executable by kernel reduction, and the entry
points pass a fuel value provably larger than the number of iterations the
source would perform, so the fuel-exhaustion branches are never reached.
-/

namespace GDExport

/-- A piece of text (C++ std::string / llvm::StringRef). -/
abbrev Span := List Char

/-- Membership of the whitespace set " \t\n\v\f\r" used by the source for
StringRef trimming and for find_first_of / find_first_not_of calls. -/
def isWS (c : Char) : Bool :=
  c = ' ' || c = '\t' || c = '\n' || c = '\x0B' || c = '\x0C' || c = '\r'

/-- StringRef::ltrim: drop leading whitespace. -/
def ltrim : Span → Span
  | [] => []
  | c :: rest => if isWS c then ltrim rest else c :: rest

/-- StringRef::rtrim: drop trailing whitespace. -/
def rtrim (s : Span) : Span := (ltrim s.reverse).reverse

/-- StringRef::trim: drop leading and trailing whitespace. -/
def trim (s : Span) : Span := rtrim (ltrim s)

/-- find_first_not_of(" \t\n\v\f\r"): index of the first non-whitespace
character, none when the span is entirely whitespace (npos). -/
def firstNonWS : Span → Option Nat
  | [] => none
  | c :: rest => if isWS c then (firstNonWS rest).map (· + 1) else some 0

/-- find_first_of(" \t\n\v\f\r"): index of the first whitespace character,
none when there is no whitespace (npos). -/
def firstWS : Span → Option Nat
  | [] => none
  | c :: rest => if isWS c then some 0 else (firstWS rest).map (· + 1)

/-- StringRef::find(ch, start): absolute index of the first occurrence of ch
at or after position start, none for npos. -/
def findCharFrom (ch : Char) (s : Span) (start : Nat) : Option Nat :=
  ((s.drop start).findIdx? (fun c => c = ch)).map (· + start)

/-- find_first_of over a set of characters: index of the first character of
the span contained in the set, none for npos. -/
def findFirstOfChars (chars : Span) : Span → Option Nat
  | [] => none
  | c :: rest => if chars.contains c then some 0 else (findFirstOfChars chars rest).map (· + 1)

/-- The special-character set g_special = "\"'<>&" of the XML escaper. -/
def gSpecial : Span := ['"', '\x27', '<', '>', '&']

/-- The switch of operator<<(llvm::raw_ostream&, const XMLEscape&): the
entity written for one special character (no output for any other, as in the
switch without default). -/
def escapeEntity (c : Char) : Span :=
  if c = '"' then ("&quot;").data
  else if c = '\x27' then ("&apos;").data
  else if c = '<' then ("&lt;").data
  else if c = '>' then ("&gt;").data
  else if c = '&' then ("&amp;").data
  else []

/-- Loop of operator<<(llvm::raw_ostream&, const XMLEscape&): repeatedly
find the next special character, copy the text before it, write its entity,
and continue after it.  The fuel argument only drives Lean termination; one
unit is consumed per found special character, so s.length units suffice. -/
def escapeXMLF : Nat → Span → Span
  | 0, s => s
  | fuel+1, s =>
    match findFirstOfChars gSpecial s with
    | none => s
    | some pos => s.take pos ++ escapeEntity (s.getD pos ' ') ++ escapeXMLF fuel (s.drop (pos+1))

/-- EscapeXML as used by the renderer: escape a whole span. -/
def escapeXML (s : Span) : Span := escapeXMLF s.length s

/-- Specification-side description of escaping (spec section 4.4): each of
the five special characters is replaced by its named entity and every other
character passes through unchanged, in order. -/
def escCharSpec (c : Char) : Span :=
  if c = '"' then ("&quot;").data
  else if c = '\x27' then ("&apos;").data
  else if c = '<' then ("&lt;").data
  else if c = '>' then ("&gt;").data
  else if c = '&' then ("&amp;").data
  else [c]

/-- ParagraphType from extractdocvisitor.hpp. -/
inductive ParagraphType where
  | Normal
  | List
  | VerbatimText
  | GDScript
  | CSharpCode
deriving DecidableEq

/-- operator<<(llvm::raw_ostream&, ParagraphType): the name written for a
code/plain-text block (nothing for Normal and List). -/
def typeName : ParagraphType → Span
  | ParagraphType.VerbatimText => ("text").data
  | ParagraphType.GDScript => ("gdscript").data
  | ParagraphType.CSharpCode => ("csharp").data
  | ParagraphType.Normal => []
  | ParagraphType.List => []

/-- IsDifferentLanguage: both paragraphs are code blocks of different
script languages. -/
def IsDifferentLanguage (current next : ParagraphType) : Bool :=
  (current = ParagraphType.GDScript && next = ParagraphType.CSharpCode)
    || (current = ParagraphType.CSharpCode && next = ParagraphType.GDScript)

/-- Paragraph from extractdocvisitor.hpp: an ordered list of text spans plus
a kind tag (the C++ field is named Type, which Lean reserves). -/
structure Paragraph where
  Data : List Span
  Kind : ParagraphType
deriving DecidableEq

/-- Default-constructed paragraph: Paragraph(ParagraphType::Normal). -/
def emptyParagraph : Paragraph := ⟨[], ParagraphType.Normal⟩

/-- Paragraph::empty: every span is empty after left-trimming. -/
def Paragraph.empty (p : Paragraph) : Bool :=
  p.Data.all (fun s => (ltrim s).isEmpty)

/-- Paragraph::push_front: left-trim the current first span (when it has a
non-whitespace character) and prepend the new span. -/
def Paragraph.push_front (p : Paragraph) (s : Span) : Paragraph :=
  let data :=
    match p.Data with
    | [] => []
    | first :: rest =>
      match firstNonWS first with
      | some pos => first.drop pos :: rest
      | none => first :: rest
  ⟨s :: data, p.Kind⟩

/-- operator+=(Paragraph&, const std::string&) and the StringRef / char*
overloads: push one span at the back. -/
def Paragraph.appendSpan (p : Paragraph) (s : Span) : Paragraph :=
  ⟨p.Data ++ [s], p.Kind⟩

/-- operator+=(Paragraph&, Paragraph&&): splice the spans only when the two
kinds agree; otherwise nothing happens (the source marks the else branch
with a TODO). -/
def Paragraph.appendPara (p : Paragraph) (q : Paragraph) : Paragraph :=
  if p.Kind = q.Kind then ⟨p.Data ++ q.Data, p.Kind⟩ else p

/-- The recognized reference kinds of ParseReference other than operator. -/
def refKinds : List Span :=
  [("annotation").data, ("constant").data, ("enum").data, ("member").data,
   ("method").data, ("constructor").data, ("signal").data, ("theme_item").data]

/-- ParseReference: resolve an @ref token of the form kind:rest against the
current class name. -/
def ParseReference (ref : Span) (className : Span) : Span :=
  match findCharFrom ':' ref 0 with
  | none => '[' :: (ref ++ [']'])
  | some sep =>
    let ty := ref.take sep
    if ty = ("operator").data then
      match findCharFrom '.' ref (sep+1) with
      | some e =>
        ("[operator ").data ++ (ref.drop (sep+1)).take (e - sep) ++ ("operator ").data
          ++ ref.drop (e+1) ++ [']']
      | none =>
        ("[operator ").data ++ className ++ (".operator ").data ++ ref.drop (sep+1) ++ [']']
    else if refKinds.contains ty then
      match findCharFrom '.' ref (sep+1) with
      | some _ => '[' :: (ty ++ ' ' :: (ref.drop (sep+1) ++ [']']))
      | none => '[' :: (ty ++ ' ' :: (className ++ '.' :: (ref.drop (sep+1) ++ [']'])))
    else '[' :: (ref ++ [']'])

/-- Specification-side test: the token has a colon and the text before the
first colon is a recognized kind (operator or one of the eight others). -/
def recognizedRef (ref : Span) : Bool :=
  match findCharFrom ':' ref 0 with
  | none => false
  | some sep => ref.take sep = ("operator").data || refKinds.contains (ref.take sep)

mutual
/-- Shallow model of the clang comment-tree nodes the source visits.  A
verbatim block is modelled by its command name and the texts of its
contained verbatim-block-line children; a parameter-documentation node
carries the vararg flag, the zero-based parameter index, the resolved
parameter name and its description children.  htmlTag covers the
HTMLStartTagComment / HTMLEndTagComment cases and otherComment every
remaining kind; the source contributes nothing for either.  The child
sequence is a separate mutual inductive so that the recursive walks below
are structural. -/
inductive Comment where
  | text (s : Span)
  | inlineCommand (name : Span) (args : List Span)
  | paragraph (children : CommentList)
  | blockCommand (name : Span) (args : List Span) (children : CommentList)
  | verbatimBlock (name : Span) (lines : List Span)
  | verbatimLine (t : Span)
  | paramCommand (isVarArg : Bool) (idx : Nat) (pname : Span) (children : CommentList)
  | htmlTag
  | otherComment

inductive CommentList where
  | nil
  | cons (head : Comment) (tail : CommentList)
end

/-- Build a child sequence from a plain list (notation helper only). -/
def clist : List Comment → CommentList
  | [] => CommentList.nil
  | c :: rest => CommentList.cons c (clist rest)

/-- Handling of one InlineCommandComment before the trailing-argument loop:
the if/else-if chain of ParseComments on the command name and the first
argument (empty when there are no arguments). -/
def inlineFirst (className : Span) (result : Paragraph) (cmd : Span) (args : List Span) :
    Paragraph :=
  let arg := if args.length > 0 then args.headD [] else []
  if cmd = ("a").data then
    result.appendSpan (("[param ").data ++ arg ++ [']'])
  else if cmd = ("b").data then
    result.appendSpan (("[b]").data ++ arg ++ ("[/b]").data)
  else if cmd = ("c").data then
    result.appendSpan (("[code]").data ++ arg ++ ("[/code]").data)
  else if cmd = ("e").data ∨ cmd = ("em").data then
    result.appendSpan (("[i]").data ++ arg ++ ("[/i]").data)
  else if cmd = ("n").data then
    result.appendSpan (("[br]").data)
  else if cmd = ("p").data then
    result.appendSpan (("[member ").data ++ className ++ ('.' :: arg))
  else if cmd = ("ref").data then
    result.appendSpan (ParseReference arg className)
  else if arg ≠ [] then
    result.appendSpan arg
  else
    result

/-- Full handling of one InlineCommandComment: the chain above followed by
the loop that appends every argument after the first as one span made of a
single space and the argument text. -/
def parseInlineCmd (className : Span) (result : Paragraph) (cmd : Span) (args : List Span) :
    Paragraph :=
  let r := inlineFirst className result cmd args
  if args.length > 1 then
    (args.drop 1).foldl (fun acc a => acc.appendSpan (' ' :: a)) r
  else
    r

mutual
/-- One switch case of ParseComments: the contribution of one child node to
the accumulated paragraph.  Nested block commands and paragraphs recurse
into their own children with ParseComments and splice the result; verbatim,
parameter and HTML children contribute nothing here. -/
def parseOne (className : Span) (acc : Paragraph) : Comment → Paragraph
  | Comment.text s => acc.appendSpan s
  | Comment.inlineCommand name args => parseInlineCmd className acc name args
  | Comment.paragraph ch => acc.appendPara (parseCList className emptyParagraph ch)
  | Comment.blockCommand _ _ ch => acc.appendPara (parseCList className emptyParagraph ch)
  | _ => acc

/-- Loop of ParseComments: walk the children in document order. -/
def parseCList (className : Span) (acc : Paragraph) : CommentList → Paragraph
  | CommentList.nil => acc
  | CommentList.cons c rest => parseCList className (parseOne className acc c) rest
end

/-- ParseComments entry point for the children of one node. -/
def parseComments (className : Span) (children : CommentList) : Paragraph :=
  parseCList className emptyParagraph children

/-- StatusTag from extractdocvisitor.hpp. -/
structure StatusTag where
  IsTagPresent : Bool
  Message : Paragraph
deriving DecidableEq

/-- Tutorial from extractdocvisitor.hpp. -/
structure Tutorial where
  URL : Span
  Title : Paragraph
deriving DecidableEq

/-- Parameters from extractdocvisitor.hpp (name and description of one
documented argument or return value). -/
structure Parameters where
  Name : Span
  Description : Paragraph
deriving DecidableEq

/-- Default-constructed Parameters(): empty name, empty description. -/
def emptyParameters : Parameters := ⟨[], emptyParagraph⟩

/-- ParsedDocumentation from extractdocvisitor.hpp (only the documentation
fields; method bodies are modelled separately). -/
structure ParsedDocumentation where
  Detailed : List Paragraph
  Brief : Paragraph
  Author : List Paragraph
  Copyright : List Paragraph
  Since : List Paragraph
  Version : List Paragraph
  Preconditions : List Paragraph
  Postconditions : List Paragraph
  ReturnDesc : Paragraph
  Deprecated : StatusTag
  Experimental : StatusTag
  Tutorials : List Tutorial
  ParameterDescs : List Parameters
  ReturnValues : List Parameters
deriving DecidableEq

/-- ParsedDocumentation(): the all-empty record. -/
def emptyDoc : ParsedDocumentation :=
  ⟨[], emptyParagraph, [], [], [], [], [], [], emptyParagraph,
   ⟨false, emptyParagraph⟩, ⟨false, emptyParagraph⟩, [], [], []⟩

/-- Title: the BBCode for a paragraph title. -/
def titleOf (title : Span) : Span := ("[b]").data ++ title ++ (":[/b] ").data

/-- The ADMONITION macro: push a colored bold label to the paragraph front. -/
def admonition (p : Paragraph) (color : Span) (symbol : Span) (title : Span) : Paragraph :=
  p.push_front (("[color=").data ++ color ++ ("] ").data ++ symbol
    ++ ("  [b]").data ++ title ++ (":[/b][/color] ").data)

/-- The ParamCommandComment branch of the classifier: grow the parameter
list so the index is addressable (std::vector::resize value-initializes the
new slots) and assign the slot. -/
def applyParam (descs : List Parameters) (idx : Nat) (pname : Span) (desc : Paragraph) :
    List Parameters :=
  let resized :=
    if descs.length ≤ idx then descs ++ List.replicate (idx + 1 - descs.length) emptyParameters
    else descs
  resized.set idx ⟨pname, desc⟩

/-- Scan for the first span that is non-empty after left-trimming, returning
the spans before it, the span itself and the spans after it. -/
def splitFirstNonBlank : List Span → Option (List Span × Span × List Span)
  | [] => none
  | s :: rest =>
    if (ltrim s).isEmpty then
      (splitFirstNonBlank rest).map (fun x => (s :: x.1, x.2.1, x.2.2))
    else
      some ([], s, rest)

/-- The tutorial branch of ParseBlock: find the first non-blank span; when
none exists do nothing; otherwise trim it, split it at the first whitespace
character into URL and title rest (erasing the span entirely when it has no
whitespace), and append one Tutorial built from the URL and the remaining
paragraph. -/
def tutorialStep (d : ParsedDocumentation) (paragraph : Paragraph) : ParsedDocumentation :=
  match splitFirstNonBlank paragraph.Data with
  | none => d
  | some (pre, s, post) =>
    let str := trim s
    match firstWS str with
    | none =>
      { d with Tutorials := d.Tutorials ++ [⟨str, ⟨pre ++ post, paragraph.Kind⟩⟩] }
    | some pos =>
      { d with Tutorials := d.Tutorials ++
          [⟨str.take pos, ⟨pre ++ [ltrim (str.drop (pos+1))] ++ post, paragraph.Kind⟩⟩] }

/-- ParsedDocumentation::ParseBlock: route one BlockCommandComment by its
command name, returning the updated record and brief-tag flag. -/
def parseBlockCmd (className : Span) (d : ParsedDocumentation) (hasBriefTag : Bool)
    (command : Span) (args : List Span) (children : CommentList) :
    ParsedDocumentation × Bool :=
  let paragraph := parseComments className children
  if command = ("author").data ∨ command = ("authors").data then
    ({ d with Author := d.Author ++ [paragraph] }, hasBriefTag)
  else if command = ("attention").data then
    ({ d with Detailed := d.Detailed ++
        [admonition paragraph (("aa6600").data) (("⚠").data) (("Attention").data)] },
     hasBriefTag)
  else if command = ("brief").data then
    (if ¬ (d.Brief.empty) then
       if ¬ hasBriefTag then
         { d with
             Detailed := if d.Detailed.isEmpty then d.Detailed ++ [d.Brief]
                         else d.Brief :: d.Detailed,
             Brief := paragraph }
       else
         { d with Brief := d.Brief.appendPara paragraph }
     else
       { d with Brief := paragraph },
     true)
  else if command = ("bug").data then
    ({ d with Detailed := d.Detailed ++
        [admonition paragraph (("dd3311").data) (("☠").data) (("Bug").data)] },
     hasBriefTag)
  else if command = ("copyright").data then
    ({ d with Copyright := d.Copyright ++ [paragraph] }, hasBriefTag)
  else if command = ("deprecated").data then
    ({ d with Deprecated := ⟨true, paragraph⟩ }, hasBriefTag)
  else if command = ("experimental").data then
    ({ d with Experimental := ⟨true, paragraph⟩ }, hasBriefTag)
  else if command = ("li").data then
    ({ d with Detailed := d.Detailed ++ [⟨paragraph.Data, ParagraphType.List⟩] }, hasBriefTag)
  else if command = ("note").data then
    ({ d with Detailed := d.Detailed ++
        [admonition paragraph (("008855").data) (("☆").data) (("Note").data)] },
     hasBriefTag)
  else if command = ("remark").data then
    ({ d with Detailed := d.Detailed ++
        [admonition paragraph (("0077cc").data) (("★").data) (("Remark").data)] },
     hasBriefTag)
  else if command = ("since").data then
    ({ d with Since := d.Since ++ [paragraph] }, hasBriefTag)
  else if command = ("par").data then
    ({ d with Detailed := d.Detailed ++
        [if args.length > 0 then paragraph.push_front (titleOf (args.headD []))
         else paragraph] },
     hasBriefTag)
  else if command = ("pre").data then
    ({ d with Preconditions := d.Preconditions ++ [paragraph] }, hasBriefTag)
  else if command = ("pos").data then
    ({ d with Postconditions := d.Postconditions ++ [paragraph] }, hasBriefTag)
  else if command = ("result").data ∨ command = ("return").data ∨ command = ("returns").data then
    ({ d with ReturnDesc := d.ReturnDesc.appendPara paragraph }, hasBriefTag)
  else if command = ("retval").data then
    ({ d with ReturnValues := d.ReturnValues ++
        [if args.length > 0 then ⟨args.headD [], paragraph⟩ else ⟨[], paragraph⟩] },
     hasBriefTag)
  else if command = ("todo").data then
    ({ d with Detailed := d.Detailed ++
        [admonition paragraph (("aa44dd").data) (("🗹︎").data) (("TODO").data)] },
     hasBriefTag)
  else if command = ("tutorial").data then
    (tutorialStep d paragraph, hasBriefTag)
  else if command = ("version").data then
    ({ d with Version := d.Version ++ [paragraph] }, hasBriefTag)
  else if command = ("warning").data then
    ({ d with Detailed := d.Detailed ++
        [admonition paragraph (("ee0022").data) (("⚠").data) (("Warning").data)] },
     hasBriefTag)
  else
    ({ d with Detailed := d.Detailed ++ [paragraph] }, hasBriefTag)

/-- ParsedDocumentation::ParseVerbatim: pick the paragraph kind from a
leading language-marker line of a code block and append the remaining lines
as one paragraph of that kind to Detailed. -/
def parseVerbatim (d : ParsedDocumentation) (command : Span) (lines : List Span) :
    ParsedDocumentation :=
  let kindRest :=
    if command = ("code").data then
      match lines with
      | first :: restL =>
        let ct := trim first
        if ct = ("\x7b.gd\x7d").data then (ParagraphType.GDScript, restL)
        else if ct = ("\x7b.cs\x7d").data then (ParagraphType.CSharpCode, restL)
        else (ParagraphType.VerbatimText, lines)
      | [] => (ParagraphType.VerbatimText, lines)
    else (ParagraphType.VerbatimText, lines)
  { d with Detailed := d.Detailed ++ [⟨kindRest.2, kindRest.1⟩] }

/-- One iteration of the top-level loop of the ParsedDocumentation
constructor: route one top-level comment node. -/
def docStep (className : Span) (st : ParsedDocumentation × Bool) (c : Comment) :
    ParsedDocumentation × Bool :=
  match c with
  | Comment.blockCommand name args children =>
    parseBlockCmd className st.1 st.2 name args children
  | Comment.paragraph children =>
    if ¬ st.2 ∧ st.1.Brief.empty then
      ({ st.1 with Brief := parseComments className children }, st.2)
    else
      ({ st.1 with Detailed := st.1.Detailed ++ [parseComments className children] }, st.2)
  | Comment.verbatimBlock name lines => (parseVerbatim st.1 name lines, st.2)
  | Comment.verbatimLine t =>
    ({ st.1 with Detailed := st.1.Detailed ++ [⟨[trim t], ParagraphType.VerbatimText⟩] }, st.2)
  | Comment.paramCommand isVarArg idx pname children =>
    if isVarArg then st
    else
      ({ st.1 with ParameterDescs :=
          applyParam st.1.ParameterDescs idx pname (parseComments className children) }, st.2)
  | _ => st

/-- Loop of the ParsedDocumentation constructor over the top-level children,
in document order. -/
def parseDocF (className : Span) (st : ParsedDocumentation × Bool) :
    CommentList → ParsedDocumentation × Bool
  | CommentList.nil => st
  | CommentList.cons c rest => parseDocF className (docStep className st c) rest

/-- ParsedDocumentation::ParsedDocumentation.  The C++ local
`bool hasBriefTag;` is declared WITHOUT an initializer and is read before
any assignment whenever a bare paragraph precedes the first brief command,
so its indeterminate initial value is taken here as the explicit argument
initBrief. -/
def parseDoc (className : Span) (initBrief : Bool) (children : CommentList) :
    ParsedDocumentation :=
  (parseDocF className (emptyDoc, initBrief) children).1

/-- Indent written by llvm::raw_ostream::indent: n spaces. -/
def spacesOf (n : Nat) : Span := List.replicate n ' '

/-- The list bullet prefix of the renderer: non-breaking space, bullet,
two non-breaking spaces (U+00A0 U+2022 U+00A0 U+00A0). -/
def bulletPfx : Span := (" • ").data

/-- The step of the middle-span loop of WriteSingleLine: a non-empty span is
written (escaped); the first written span is preceded by the indent and the
escaped prefix and is left-trimmed. -/
def wslStep (indent : Nat) (pfx : Span) (st : Span × Bool) (str : Span) : Span × Bool :=
  if str.length > 0 then
    if st.2 then (st.1 ++ escapeXML str, true)
    else (st.1 ++ spacesOf indent ++ escapeXML pfx ++ escapeXML (ltrim str), true)
  else st

/-- WriteSingleLine: flatten a paragraph to one line.  The final iterator of
the source walks back from the last span over spans that are blank after
right-trimming (but never past the first span); the spans before it are
written by the middle loop and the right-trimmed final span is written last.
Returns the written text and the "was anything written" flag. -/
def writeSingleLine (data : List Span) (indent : Nat) (pfx : Span) : Span × Bool :=
  match data with
  | [] => ([], false)
  | _ =>
    let n := data.length
    let k := (data.reverse.takeWhile (fun s => (rtrim s).isEmpty)).length
    let e := n - 1 - min k (n - 1)
    let middle := data.take e
    let last := rtrim (data.getD e [])
    let st := middle.foldl (wslStep indent pfx) ([], false)
    if ¬ last.isEmpty then
      if st.2 then (st.1 ++ escapeXML last, true)
      else (st.1 ++ spacesOf indent ++ escapeXML pfx ++ escapeXML (ltrim last), true)
    else st

/-- First loop of WriteVerbatim: the common strip amount, the minimum over
all spans of the index of the first non-whitespace character, starting from
numeric_limits max (modelled as none); spans that are entirely whitespace
contribute nothing. -/
def stripAmountAux (acc : Option Nat) : List Span → Option Nat
  | [] => acc
  | part :: rest =>
    stripAmountAux
      (match firstNonWS part with
       | none => acc
       | some w =>
         match acc with
         | none => some w
         | some a => some (min a w))
      rest

/-- The strip amount of WriteVerbatim for a paragraph's spans. -/
def stripAmount (data : List Span) : Option Nat := stripAmountAux none data

/-- WriteVerbatim: write each span on its own indented line with the common
strip amount removed and the remainder right-trimmed and escaped; a span not
longer than the strip amount gives a bare newline.  Returns the written text
and the "was anything written" flag (true exactly when there is a span). -/
def writeVerbatim (data : List Span) (indent : Nat) : Span × Bool :=
  let strip := stripAmount data
  (data.foldl
     (fun out part =>
       out ++ spacesOf indent ++
         (match strip with
          | none => ['\n']
          | some a => if part.length > a then escapeXML (rtrim (part.drop a)) ++ ['\n']
                      else ['\n']))
     [],
   ¬ data.isEmpty)

/-- One merged code-alternatives block of Write: both language variants
back-to-back inside a codeblocks marker pair. -/
def mergedBlock (indent : Nat) (p next : Paragraph) : Span :=
  spacesOf indent ++ ("[codeblocks]\n").data
    ++ spacesOf indent ++ ('[' :: (typeName p.Kind ++ ("]\n").data))
    ++ (writeVerbatim p.Data indent).1
    ++ spacesOf indent ++ (("[/").data ++ typeName p.Kind ++ ("]\n").data)
    ++ spacesOf indent ++ ('[' :: (typeName next.Kind ++ ("]\n").data))
    ++ (writeVerbatim next.Data indent).1
    ++ spacesOf indent ++ (("[/").data ++ typeName next.Kind ++ ("]\n").data)
    ++ spacesOf indent ++ ("[/codeblocks]").data

/-- One standalone code block of Write: a language-tagged codeblock marker
pair around the verbatim content. -/
def codeBlock (indent : Nat) (p : Paragraph) : Span :=
  spacesOf indent ++ (("[codeblock lang=").data ++ typeName p.Kind ++ ("]\n").data)
    ++ (writeVerbatim p.Data indent).1
    ++ spacesOf indent ++ ("[/codeblock]").data

/-- Loop of Write: walk the paragraphs, skipping empty ones; a pending
paragraph break writes one newline first.  A code paragraph looks ahead
past empty paragraphs; when the next non-empty paragraph is code of the
other script language both are written as one merged alternatives block and
the cursor continues after that paragraph, otherwise the paragraph is
written standalone.  One unit of fuel is consumed per iteration and every
iteration removes at least one paragraph, so the list length suffices. -/
def writeParasAux (indent : Nat) (pfx : Span) :
    Nat → Span → Bool → List Paragraph → Span × Bool
  | _, out, newPara, [] => (out, newPara)
  | 0, out, newPara, _ => (out, newPara)
  | fuel+1, out, newPara, p :: rest =>
    if p.empty then writeParasAux indent pfx fuel out newPara rest
    else
      let out1 := if newPara then out ++ ['\n'] else out
      match p.Kind with
      | ParagraphType.List =>
        writeParasAux indent pfx fuel
          (out1 ++ (writeSingleLine p.Data indent bulletPfx).1) true rest
      | ParagraphType.VerbatimText =>
        writeParasAux indent pfx fuel
          (out1 ++ spacesOf indent ++ ("[codeblock lang=text]\n").data
            ++ (writeVerbatim p.Data indent).1
            ++ spacesOf indent ++ ("[/codeblock]").data)
          true rest
      | ParagraphType.GDScript =>
        (match rest.dropWhile (fun q => q.empty) with
         | next :: after =>
           if IsDifferentLanguage p.Kind next.Kind then
             writeParasAux indent pfx fuel (out1 ++ mergedBlock indent p next) true after
           else
             writeParasAux indent pfx fuel (out1 ++ codeBlock indent p) true rest
         | [] => writeParasAux indent pfx fuel (out1 ++ codeBlock indent p) true rest)
      | ParagraphType.CSharpCode =>
        (match rest.dropWhile (fun q => q.empty) with
         | next :: after =>
           if IsDifferentLanguage p.Kind next.Kind then
             writeParasAux indent pfx fuel (out1 ++ mergedBlock indent p next) true after
           else
             writeParasAux indent pfx fuel (out1 ++ codeBlock indent p) true rest
         | [] => writeParasAux indent pfx fuel (out1 ++ codeBlock indent p) true rest)
      | ParagraphType.Normal =>
        let wsl := writeSingleLine p.Data indent (if newPara then [] else pfx)
        writeParasAux indent pfx fuel (out1 ++ wsl.1) (wsl.2 || newPara) rest

/-- Write: render a paragraph sequence, returning the text and the final
new-paragraph flag. -/
def writeParas (paras : List Paragraph) (indent : Nat) (pfx : Span) : Span × Bool :=
  writeParasAux indent pfx paras.length [] false paras

/-- Top-level comment tree of two bare paragraphs, "Summary." then "Body.",
with no explicit brief command. -/
def twoParasTree : CommentList := clist
  [Comment.paragraph (clist [Comment.text (("Summary.").data)]),
   Comment.paragraph (clist [Comment.text (("Body.").data)])]

/-- The same two bare paragraphs followed by an explicit brief block command
carrying the text "New summary.". -/
def twoParasBriefTree : CommentList := clist
  [Comment.paragraph (clist [Comment.text (("Summary.").data)]),
   Comment.paragraph (clist [Comment.text (("Body.").data)]),
   Comment.blockCommand (("brief").data) []
     (clist [Comment.paragraph (clist [Comment.text (("New summary.").data)])])]

/-- Top-level comment tree documenting parameter index 2 (and no other). -/
def paramIdx2Tree : CommentList := clist
  [Comment.paramCommand false 2 (("p2").data)
     (clist [Comment.paragraph (clist [Comment.text (("desc2").data)])])]

/-- Top-level comment tree of two consecutive li block commands. -/
def twoLiTree : CommentList := clist
  [Comment.blockCommand (("li").data) []
     (clist [Comment.paragraph (clist [Comment.text (("A").data)])]),
   Comment.blockCommand (("li").data) []
     (clist [Comment.paragraph (clist [Comment.text (("B").data)])])]

/-! Theorems.  Each claim of the specification review is settled by exactly
one theorem named after it; shared helper lemmas come first. -/

theorem dropWhile_length_le {α : Type} (p : α → Bool) (l : List α) :
    (l.dropWhile p).length ≤ l.length := by
  induction l with
  | nil => simp
  | cons a t ih =>
    by_cases hp : p a
    · simp only [List.dropWhile_cons, hp, if_true]
      exact Nat.le_succ_of_le ih
    · simp [List.dropWhile_cons, hp]

theorem length_le_of_dropWhile_cons {p : Paragraph → Bool} {l after : List Paragraph}
    {next : Paragraph} (h : l.dropWhile p = next :: after) : after.length < l.length := by
  have hs := dropWhile_length_le p l
  rw [h] at hs
  simpa using Nat.lt_of_lt_of_le (Nat.lt_succ_self after.length) hs

/-- C7: appending a paragraph of a different kind onto a paragraph leaves it
completely unchanged (same kind, same spans); the appended data is silently
dropped and no error is raised. -/
theorem C7_append_kind_mismatch (p q : Paragraph) (h : p.Kind ≠ q.Kind) :
    p.appendPara q = p := by
  unfold Paragraph.appendPara
  rw [if_neg h]

theorem C7_append_kind_mismatch_witness :
    Paragraph.appendPara ⟨[("x").data], ParagraphType.Normal⟩ ⟨[("y").data], ParagraphType.List⟩
      = ⟨[("x").data], ParagraphType.Normal⟩ :=
  C7_append_kind_mismatch _ _ (by decide)

/-- C2: reference resolution.  member:Color.r with owner Color gives
[member Color.r]; method:jump with owner Player gives [method Player.jump];
operator:Vector2.+ with owner Vector2 gives [operator Vector2.operator +];
and every token with no colon or with an unrecognized kind before its first
colon is wrapped verbatim in brackets. -/
theorem C2_reference_resolution :
    ParseReference (("member:Color.r").data) (("Color").data) = ("[member Color.r]").data ∧
    ParseReference (("method:jump").data) (("Player").data) = ("[method Player.jump]").data ∧
    ParseReference (("operator:Vector2.+").data) (("Vector2").data)
      = ("[operator Vector2.operator +]").data ∧
    ∀ ref className : Span, recognizedRef ref = false →
      ParseReference ref className = '[' :: (ref ++ [']']) := by
  refine ⟨by decide, by decide, by decide, ?_⟩
  intro ref className h
  unfold recognizedRef at h
  unfold ParseReference
  cases hf : findCharFrom ':' ref 0 with
  | none => rfl
  | some sep =>
    rw [hf] at h
    simp only [Bool.or_eq_false_iff, decide_eq_false_iff_not] at h
    simp only [h.1, if_false]
    rw [if_neg (by simpa using h.2)]

theorem C2_reference_resolution_witness :
    ParseReference (("foo:bar").data) (("X").data) = '[' :: ((("foo:bar").data) ++ [']']) :=
  C2_reference_resolution.2.2.2 (("foo:bar").data) (("X").data) (by decide)

/-- C1: the intended brief-demotion behavior only holds when the
uninitialized C++ local hasBriefTag happens to start false.  With initial
value false the two bare paragraphs give Brief = "Summary." and
Detailed = ["Body."], and the added explicit brief command gives
Brief = "New summary." with the old brief demoted to the front of Detailed;
but with initial value true (equally possible, since the source never
initializes the flag before reading it) the first bare paragraph is routed
to Detailed and Brief stays empty, contradicting the claim. -/
theorem C1_brief_demotion_uninitialized_flag :
    ((parseDoc (("X").data) false twoParasTree).Brief
        = ⟨[("Summary.").data], ParagraphType.Normal⟩ ∧
      (parseDoc (("X").data) false twoParasTree).Detailed
        = [⟨[("Body.").data], ParagraphType.Normal⟩]) ∧
    ((parseDoc (("X").data) true twoParasTree).Brief = emptyParagraph ∧
      (parseDoc (("X").data) true twoParasTree).Detailed
        = [⟨[("Summary.").data], ParagraphType.Normal⟩,
           ⟨[("Body.").data], ParagraphType.Normal⟩]) ∧
    (∀ b : Bool,
      (parseDoc (("X").data) b twoParasBriefTree).Brief
        = ⟨[("New summary.").data], ParagraphType.Normal⟩ ∧
      (parseDoc (("X").data) b twoParasBriefTree).Detailed
        = [⟨[("Summary.").data], ParagraphType.Normal⟩,
           ⟨[("Body.").data], ParagraphType.Normal⟩]) := by
  refine ⟨⟨by decide, by decide⟩, ⟨by decide, by decide⟩, ?_⟩
  intro b
  cases b
  · exact ⟨by decide, by decide⟩
  · exact ⟨by decide, by decide⟩

/-- C8: two consecutive li block commands produce two List-kind paragraphs
appended to Detailed (whatever the indeterminate initial brief flag), and
rendering those two paragraphs emits two bullet-prefixed lines separated by
a single newline, i.e. one contiguous block with no blank line between. -/
theorem C8_consecutive_list_items :
    (∀ b : Bool, (parseDoc (("X").data) b twoLiTree).Detailed
      = [⟨[("A").data], ParagraphType.List⟩, ⟨[("B").data], ParagraphType.List⟩]) ∧
    writeParas [⟨[("A").data], ParagraphType.List⟩, ⟨[("B").data], ParagraphType.List⟩] 0 []
      = ((bulletPfx ++ ("A").data) ++ '\n' :: (bulletPfx ++ ("B").data), true) := by
  refine ⟨?_, by decide⟩
  intro b
  cases b
  · decide
  · decide

theorem foldl_appendSpan_space (l : List Span) :
    ∀ r : Paragraph, l.foldl (fun acc a => acc.appendSpan (' ' :: a)) r
      = ⟨r.Data ++ l.map (fun a => ' ' :: a), r.Kind⟩ := by
  induction l with
  | nil => intro r; simp
  | cons a t ih =>
    intro r
    rw [List.foldl_cons, ih]
    simp [Paragraph.appendSpan]

/-- C10: every inline command with more than one argument, recognized or
not, has each argument after the first appended to the paragraph as its own
span made of a single space followed by the argument text; and an
unrecognized inline command whose single argument is the empty string
contributes nothing. -/
theorem C10_inline_trailing_args :
    (∀ (className : Span) (result : Paragraph) (cmd : Span) (args : List Span),
        1 < args.length →
        parseInlineCmd className result cmd args =
          ⟨(inlineFirst className result cmd args).Data
             ++ (args.drop 1).map (fun a => ' ' :: a),
           (inlineFirst className result cmd args).Kind⟩) ∧
    (∀ (className : Span) (result : Paragraph) (cmd : Span),
        cmd ∉ [("a").data, ("b").data, ("c").data, ("e").data, ("em").data,
               ("n").data, ("p").data, ("ref").data] →
        parseInlineCmd className result cmd [[]] = result) := by
  constructor
  · intro className result cmd args hlen
    unfold parseInlineCmd
    rw [if_pos hlen]
    exact foldl_appendSpan_space _ _
  · intro className result cmd hcmd
    simp only [List.mem_cons, List.not_mem_nil, or_false, not_or] at hcmd
    obtain ⟨h1, h2, h3, h4, h5, h6, h7, h8⟩ := hcmd
    unfold parseInlineCmd inlineFirst
    simp [h1, h2, h3, h4, h5, h6, h7, h8]

theorem C10_inline_trailing_args_witness :
    parseInlineCmd (("X").data) emptyParagraph (("b").data)
        [("x").data, ("y").data, ("z").data]
      = ⟨(inlineFirst (("X").data) emptyParagraph (("b").data)
            [("x").data, ("y").data, ("z").data]).Data
           ++ (([("x").data, ("y").data, ("z").data].drop 1).map (fun a => ' ' :: a)),
         (inlineFirst (("X").data) emptyParagraph (("b").data)
            [("x").data, ("y").data, ("z").data]).Kind⟩ :=
  C10_inline_trailing_args.1 (("X").data) emptyParagraph (("b").data)
    [("x").data, ("y").data, ("z").data] (by decide)

theorem splitFirstNonBlank_all_blank :
    ∀ data : List Span, (∀ s ∈ data, (ltrim s).isEmpty = true) →
      splitFirstNonBlank data = none := by
  intro data
  induction data with
  | nil => intro _; rfl
  | cons s rest ih =>
    intro h
    unfold splitFirstNonBlank
    rw [if_pos (h s (by simp)), ih (fun x hx => h x (by simp [hx]))]
    rfl

theorem splitFirstNonBlank_split :
    ∀ (pre : List Span) (s : Span) (post : List Span),
      (∀ x ∈ pre, (ltrim x).isEmpty = true) → (ltrim s).isEmpty = false →
      splitFirstNonBlank (pre ++ s :: post) = some (pre, s, post) := by
  intro pre
  induction pre with
  | nil =>
    intro s post _ hs
    unfold splitFirstNonBlank
    simp [hs]
  | cons x rest ih =>
    intro s post hpre hs
    have hx := hpre x (by simp)
    simp only [List.cons_append]
    unfold splitFirstNonBlank
    rw [if_pos hx, ih s post (fun y hy => hpre y (by simp [hy])) hs]
    rfl

/-- C9: a tutorial block command whose paragraph has no non-blank span
changes nothing (no Tutorial entry, no failure); otherwise the first
non-blank span, trimmed, is split at its first whitespace character into a
URL and the remaining title fragment (the whole trimmed span becomes the
URL and is erased when it has no whitespace), and exactly one Tutorial with
that URL and title paragraph is appended. -/
theorem C9_tutorial_block :
    (∀ (d : ParsedDocumentation) (para : Paragraph),
        (∀ s ∈ para.Data, (ltrim s).isEmpty = true) → tutorialStep d para = d) ∧
    (∀ (d : ParsedDocumentation) (kind : ParagraphType) (pre : List Span) (s : Span)
        (post : List Span) (pos : Nat),
        (∀ x ∈ pre, (ltrim x).isEmpty = true) → (ltrim s).isEmpty = false →
        firstWS (trim s) = some pos →
        tutorialStep d ⟨pre ++ s :: post, kind⟩ =
          { d with Tutorials := d.Tutorials ++
              [⟨(trim s).take pos,
                ⟨pre ++ [ltrim ((trim s).drop (pos+1))] ++ post, kind⟩⟩] }) ∧
    (∀ (d : ParsedDocumentation) (kind : ParagraphType) (pre : List Span) (s : Span)
        (post : List Span),
        (∀ x ∈ pre, (ltrim x).isEmpty = true) → (ltrim s).isEmpty = false →
        firstWS (trim s) = none →
        tutorialStep d ⟨pre ++ s :: post, kind⟩ =
          { d with Tutorials := d.Tutorials ++ [⟨trim s, ⟨pre ++ post, kind⟩⟩] }) := by
  refine ⟨?_, ?_, ?_⟩
  · intro d para h
    unfold tutorialStep
    rw [splitFirstNonBlank_all_blank para.Data h]
  · intro d kind pre s post pos hpre hs hws
    unfold tutorialStep
    rw [splitFirstNonBlank_split pre s post hpre hs]
    simp only [hws]
  · intro d kind pre s post hpre hs hws
    unfold tutorialStep
    rw [splitFirstNonBlank_split pre s post hpre hs]
    simp only [hws]

theorem C9_tutorial_block_witness :
    tutorialStep emptyDoc ⟨[("  ").data, ("\t").data], ParagraphType.Normal⟩ = emptyDoc :=
  C9_tutorial_block.1 emptyDoc ⟨[("  ").data, ("\t").data], ParagraphType.Normal⟩ (by decide)

/-- C6: a parameter-documentation node with zero-based index i (not vararg)
grows the parameter-description list exactly so that index i is
addressable, every newly created gap slot defaults to empty name and empty
description, slot i receives the given name and description, and
pre-existing other slots are untouched; in particular documenting index 2
first produces a 3-slot list whose slots 0 and 1 are default-empty. -/
theorem C6_parameter_index_gap :
    (∀ (descs : List Parameters) (idx : Nat) (pname : Span) (desc : Paragraph),
        (applyParam descs idx pname desc).length = max descs.length (idx+1) ∧
        (applyParam descs idx pname desc)[idx]? = some ⟨pname, desc⟩ ∧
        (∀ j, descs.length ≤ j → j < idx →
          (applyParam descs idx pname desc)[j]? = some emptyParameters) ∧
        (∀ j, j < descs.length → j ≠ idx →
          (applyParam descs idx pname desc)[j]? = descs[j]?)) ∧
    (∀ b : Bool, (parseDoc (("X").data) b paramIdx2Tree).ParameterDescs =
       [emptyParameters, emptyParameters,
        ⟨("p2").data, ⟨[("desc2").data], ParagraphType.Normal⟩⟩]) := by
  constructor
  · intro descs idx pname desc
    unfold applyParam
    by_cases hle : descs.length ≤ idx
    · rw [if_pos hle]
      have hlen : (descs ++ List.replicate (idx + 1 - descs.length) emptyParameters).length
          = idx + 1 := by
        simp only [List.length_append, List.length_replicate]
        omega
      refine ⟨?_, ?_, ?_, ?_⟩
      · rw [List.length_set, hlen]
        omega
      · rw [List.getElem?_set]
        simp [hlen]
      · intro j hj1 hj2
        rw [List.getElem?_set, if_neg (by omega)]
        rw [List.getElem?_append_right hj1, List.getElem?_replicate, if_pos (by omega)]
      · intro j hj1 hj2
        rw [List.getElem?_set, if_neg (by omega)]
        rw [List.getElem?_append, if_pos hj1]
    · rw [if_neg hle]
      push_neg at hle
      refine ⟨?_, ?_, ?_, ?_⟩
      · rw [List.length_set]
        omega
      · rw [List.getElem?_set]
        simp [hle]
      · intro j hj1 hj2
        exact absurd hj1 (by omega)
      · intro j hj1 hj2
        rw [List.getElem?_set, if_neg (by omega)]
  · intro b
    cases b
    · decide
    · decide

theorem C6_parameter_index_gap_witness :
    (applyParam [] 2 (("p2").data) emptyParagraph)[0]? = some emptyParameters :=
  (C6_parameter_index_gap.1 [] 2 (("p2").data) emptyParagraph).2.2.1 0 (by decide) (by decide)

theorem findFirstOfChars_none (cs : Span) :
    ∀ s : Span, findFirstOfChars cs s = none → ∀ c ∈ s, cs.contains c = false := by
  intro s
  induction s with
  | nil => intro _ c hc; exact absurd hc (List.not_mem_nil c)
  | cons a t ih =>
    intro h c hc
    unfold findFirstOfChars at h
    by_cases ha : cs.contains a = true
    · rw [if_pos ha] at h
      exact absurd h (by simp)
    · rw [if_neg ha] at h
      have ht : findFirstOfChars cs t = none := by
        cases hft : findFirstOfChars cs t
        · rfl
        · rw [hft] at h
          simp at h
      rcases List.mem_cons.mp hc with rfl | hct
      · exact Bool.eq_false_iff.mpr ha
      · exact ih ht c hct

theorem findFirstOfChars_some (cs : Span) :
    ∀ (s : Span) (pos : Nat), findFirstOfChars cs s = some pos →
      pos < s.length ∧ (∀ c ∈ s.take pos, cs.contains c = false) ∧
      cs.contains (s.getD pos ' ') = true := by
  intro s
  induction s with
  | nil => intro pos h; simp [findFirstOfChars] at h
  | cons a t ih =>
    intro pos h
    unfold findFirstOfChars at h
    by_cases ha : cs.contains a = true
    · rw [if_pos ha] at h
      obtain rfl := (Option.some.inj h).symm
      refine ⟨by simp, ?_, by simpa using ha⟩
      intro c hc
      exact absurd hc (by simp)
    · rw [if_neg ha] at h
      cases hft : findFirstOfChars cs t with
      | none =>
        rw [hft] at h
        simp at h
      | some q =>
        rw [hft] at h
        simp at h
        subst h
        obtain ⟨h1, h2, h3⟩ := ih q hft
        refine ⟨by simpa using h1, ?_, by simpa using h3⟩
        intro c hc
        rw [List.take_succ_cons] at hc
        rcases List.mem_cons.mp hc with rfl | hct
        · exact Bool.eq_false_iff.mpr ha
        · exact h2 c hct

theorem escCharSpec_not_special (c : Char) (h : gSpecial.contains c = false) :
    escCharSpec c = [c] := by
  have hmem : c ∉ gSpecial := by simpa using h
  simp only [gSpecial, List.mem_cons, List.not_mem_nil, or_false, not_or] at hmem
  obtain ⟨n1, n2, n3, n4, n5⟩ := hmem
  simp [escCharSpec, n1, n2, n3, n4, n5]

theorem escapeEntity_special (c : Char) (h : gSpecial.contains c = true) :
    escapeEntity c = escCharSpec c := by
  have hmem : c ∈ ['"', '\x27', '<', '>', '&'] := by simpa [gSpecial] using h
  fin_cases hmem <;> rfl

theorem join_map_escCharSpec (s : Span) (h : ∀ c ∈ s, gSpecial.contains c = false) :
    (s.map escCharSpec).flatten = s := by
  induction s with
  | nil => rfl
  | cons a t ih =>
    have ha := escCharSpec_not_special a (h a (by simp))
    simp [ha, ih (fun c hc => h c (by simp [hc]))]

theorem escapeXMLF_eq_join (fuel : Nat) :
    ∀ s : Span, s.length ≤ fuel → escapeXMLF fuel s = (s.map escCharSpec).flatten := by
  induction fuel with
  | zero =>
    intro s hs
    have hnil : s = [] := List.eq_nil_of_length_eq_zero (Nat.le_zero.mp hs)
    subst hnil
    rfl
  | succ fuel ih =>
    intro s hs
    unfold escapeXMLF
    cases hf : findFirstOfChars gSpecial s with
    | none => exact (join_map_escCharSpec s (findFirstOfChars_none gSpecial s hf)).symm
    | some pos =>
      obtain ⟨hlt, htake, hd⟩ := findFirstOfChars_some gSpecial s pos hf
      have hdrop : (s.drop (pos+1)).length ≤ fuel := by
        rw [List.length_drop]
        omega
      have hdecomp : s.take pos ++ s.getD pos ' ' :: s.drop (pos+1) = s := by
        conv_rhs => rw [← List.take_append_drop pos s]
        congr 1
        rw [List.getD_eq_getElem s ' ' hlt]
        exact (List.drop_eq_getElem_cons hlt).symm
      show s.take pos ++ escapeEntity (s.getD pos ' ') ++ escapeXMLF fuel (s.drop (pos+1))
          = (s.map escCharSpec).flatten
      rw [ih (s.drop (pos+1)) hdrop]
      conv_rhs => rw [← hdecomp]
      simp only [List.map_append, List.flatten_append, List.map_cons, List.flatten_cons]
      rw [join_map_escCharSpec (s.take pos) htake, escapeEntity_special (s.getD pos ' ') hd]
      simp [List.append_assoc]

/-- C4: the escaping function replaces every double quote, apostrophe,
angle bracket and ampersand by its named entity and passes every other
character through unchanged, in order; in particular the example span
&lt;a&gt;&amp;&apos;b&apos; is produced from the raw example input. -/
theorem C4_escaping :
    (∀ s : Span, escapeXML s = (s.map escCharSpec).flatten) ∧
    escapeXML (['<', 'a', '>', '&', '\x27', 'b', '\x27'])
      = ("&lt;a&gt;&amp;&apos;b&apos;").data :=
  ⟨fun s => escapeXMLF_eq_join s.length s (Nat.le_refl _), by decide⟩

theorem stripAmountAux_some :
    ∀ (data : List Span) (acc : Option Nat) (a : Nat), stripAmountAux acc data = some a →
      (acc = some a ∨ ∃ l ∈ data, firstNonWS l = some a) ∧
      (∀ b, acc = some b → a ≤ b) ∧
      (∀ l ∈ data, ∀ w, firstNonWS l = some w → a ≤ w) := by
  intro data
  induction data with
  | nil =>
    intro acc a h
    unfold stripAmountAux at h
    refine ⟨Or.inl h, ?_, ?_⟩
    · intro b hb
      rw [h] at hb
      rw [Option.some.inj hb]
    · intro l hl
      exact absurd hl (List.not_mem_nil l)
  | cons part rest ih =>
    intro acc a h
    unfold stripAmountAux at h
    cases hp : firstNonWS part with
    | none =>
      rw [hp] at h
      obtain ⟨hor, hacc, hall⟩ := ih acc a h
      refine ⟨?_, hacc, ?_⟩
      · rcases hor with h1 | ⟨l, hl, hw⟩
        · exact Or.inl h1
        · exact Or.inr ⟨l, by simp [hl], hw⟩
      · intro l hl w hw
        rcases List.mem_cons.mp hl with rfl | hl2
        · rw [hp] at hw
          exact absurd hw (by simp)
        · exact hall l hl2 w hw
    | some w0 =>
      rw [hp] at h
      cases hacc0 : acc with
      | none =>
        rw [hacc0] at h
        obtain ⟨hor, hacc, hall⟩ := ih (some w0) a h
        refine ⟨?_, ?_, ?_⟩
        · rcases hor with h1 | ⟨l, hl, hw⟩
          · exact Or.inr ⟨part, by simp, hp.trans h1⟩
          · exact Or.inr ⟨l, by simp [hl], hw⟩
        · intro b hb
          exact absurd hb (by simp)
        · intro l hl w hw
          rcases List.mem_cons.mp hl with rfl | hl2
          · rw [hp] at hw
            rw [← Option.some.inj hw]
            exact hacc w0 rfl
          · exact hall l hl2 w hw
      | some b0 =>
        rw [hacc0] at h
        obtain ⟨hor, hacc, hall⟩ := ih (some (min b0 w0)) a h
        have hmina := hacc (min b0 w0) rfl
        refine ⟨?_, ?_, ?_⟩
        · rcases hor with h1 | ⟨l, hl, hw⟩
          · have hmin := Option.some.inj h1
            by_cases hcase : b0 ≤ w0
            · left
              have : b0 = a := by omega
              rw [this]
            · right
              refine ⟨part, by simp, hp.trans ?_⟩
              have : w0 = a := by omega
              rw [this]
          · exact Or.inr ⟨l, by simp [hl], hw⟩
        · intro b hb
          have hb0 := Option.some.inj hb
          omega
        · intro l hl w hw
          rcases List.mem_cons.mp hl with rfl | hl2
          · rw [hp] at hw
            have hw0 := Option.some.inj hw
            omega
          · exact hall l hl2 w hw

theorem foldl_append2_map {α : Type} (g : Span) (f : α → Span) :
    ∀ (data : List α) (out : Span),
      data.foldl (fun o part => o ++ g ++ f part) out
        = out ++ (data.map (fun part => g ++ f part)).flatten := by
  intro data
  induction data with
  | nil => intro out; simp
  | cons x t ih =>
    intro out
    rw [List.foldl_cons, ih]
    simp

/-- C5: rendering a verbatim or code paragraph computes the strip amount as
the minimum leading-whitespace length over the spans that have any
non-whitespace content, and emits every span with exactly that many leading
characters removed (right-trimmed, escaped, on its own line — a span not
longer than the amount becomes a bare newline); in particular the lines
"    foo" and "      bar" are emitted as "foo" and "  bar". -/
theorem C5_common_indent_strip :
    (∀ (data : List Span) (a : Nat), stripAmount data = some a →
        (∃ l ∈ data, firstNonWS l = some a) ∧
        (∀ l ∈ data, ∀ w, firstNonWS l = some w → a ≤ w)) ∧
    (∀ (data : List Span) (indent : Nat) (a : Nat), stripAmount data = some a →
        (writeVerbatim data indent).1
          = (data.map (fun part => spacesOf indent ++
              (if a < part.length then escapeXML (rtrim (part.drop a)) ++ ['\n']
               else ['\n']))).flatten) ∧
    writeVerbatim [("    foo").data, ("      bar").data] 0
      = ((("foo\n  bar\n").data), true) := by
  refine ⟨?_, ?_, by decide⟩
  · intro data a h
    obtain ⟨hor, _, hall⟩ := stripAmountAux_some data none a h
    refine ⟨?_, hall⟩
    rcases hor with h1 | h2
    · exact absurd h1 (by simp)
    · exact h2
  · intro data indent a h
    have hf := foldl_append2_map (spacesOf indent)
      (fun part : Span => if a < part.length then escapeXML (rtrim (part.drop a)) ++ ['\n']
        else ['\n']) data []
    simpa [writeVerbatim, h] using hf

theorem C5_common_indent_strip_witness :
    (∃ l ∈ [("    foo").data, ("      bar").data], firstNonWS l = some 4) ∧
    (∀ l ∈ [("    foo").data, ("      bar").data], ∀ w, firstNonWS l = some w → 4 ≤ w) :=
  C5_common_indent_strip.1 [("    foo").data, ("      bar").data] 4 (by decide)

theorem writeParasAux_fuel_irrelevant :
    ∀ (fuel : Nat) (paras : List Paragraph) (fuel2 ind : Nat) (pfx out : Span) (np : Bool),
      paras.length ≤ fuel → paras.length ≤ fuel2 →
      writeParasAux ind pfx fuel out np paras = writeParasAux ind pfx fuel2 out np paras := by
  intro fuel
  induction fuel with
  | zero =>
    intro paras fuel2 ind pfx out np h _
    have hnil : paras = [] := List.eq_nil_of_length_eq_zero (Nat.le_zero.mp h)
    subst hnil
    cases fuel2 <;> rfl
  | succ fuel ih =>
    intro paras fuel2 ind pfx out np h h2
    cases paras with
    | nil => cases fuel2 <;> rfl
    | cons p rest =>
      simp only [List.length_cons] at h h2
      cases fuel2 with
      | zero => omega
      | succ fuel3 =>
        by_cases hemp : p.empty = true
        · simp only [writeParasAux, hemp, if_true]
          exact ih rest fuel3 ind pfx out np (by omega) (by omega)
        · have hempf : p.empty = false := Bool.eq_false_iff.mpr hemp
          cases hk : p.Kind with
          | Normal =>
            simp only [writeParasAux, hempf, Bool.false_eq_true, if_false, hk]
            exact ih rest fuel3 ind pfx _ _ (by omega) (by omega)
          | List =>
            simp only [writeParasAux, hempf, Bool.false_eq_true, if_false, hk]
            exact ih rest fuel3 ind pfx _ _ (by omega) (by omega)
          | VerbatimText =>
            simp only [writeParasAux, hempf, Bool.false_eq_true, if_false, hk]
            exact ih rest fuel3 ind pfx _ _ (by omega) (by omega)
          | GDScript =>
            cases hdw : rest.dropWhile (fun q => q.empty) with
            | nil =>
              simp only [writeParasAux, hempf, Bool.false_eq_true, if_false, hk, hdw]
              exact ih rest fuel3 ind pfx _ _ (by omega) (by omega)
            | cons next after =>
              have hlen := dropWhile_length_le (fun q => q.empty) rest
              rw [hdw] at hlen
              simp only [List.length_cons] at hlen
              by_cases hdiff : IsDifferentLanguage ParagraphType.GDScript next.Kind = true
              · simp only [writeParasAux, hempf, Bool.false_eq_true, if_false, hk, hdw, hdiff,
                  if_true]
                exact ih after fuel3 ind pfx _ _ (by omega) (by omega)
              · have hdifff : IsDifferentLanguage ParagraphType.GDScript next.Kind = false :=
                  Bool.eq_false_iff.mpr hdiff
                simp only [writeParasAux, hempf, Bool.false_eq_true, if_false, hk, hdw, hdifff]
                exact ih rest fuel3 ind pfx _ _ (by omega) (by omega)
          | CSharpCode =>
            cases hdw : rest.dropWhile (fun q => q.empty) with
            | nil =>
              simp only [writeParasAux, hempf, Bool.false_eq_true, if_false, hk, hdw]
              exact ih rest fuel3 ind pfx _ _ (by omega) (by omega)
            | cons next after =>
              have hlen := dropWhile_length_le (fun q => q.empty) rest
              rw [hdw] at hlen
              simp only [List.length_cons] at hlen
              by_cases hdiff : IsDifferentLanguage ParagraphType.CSharpCode next.Kind = true
              · simp only [writeParasAux, hempf, Bool.false_eq_true, if_false, hk, hdw, hdiff,
                  if_true]
                exact ih after fuel3 ind pfx _ _ (by omega) (by omega)
              · have hdifff : IsDifferentLanguage ParagraphType.CSharpCode next.Kind = false :=
                  Bool.eq_false_iff.mpr hdiff
                simp only [writeParasAux, hempf, Bool.false_eq_true, if_false, hk, hdw, hdifff]
                exact ih rest fuel3 ind pfx _ _ (by omega) (by omega)

/-- C3: when the Write loop reaches a non-empty code paragraph (GDScript or
C#), it looks at the next non-empty paragraph: if that is code of the other
script language, both are emitted as one merged alternatives block and the
loop continues after the second paragraph; if it is anything else — code of
the same language, a non-code paragraph, or nothing — the paragraph is
emitted as a standalone language-tagged code block and the loop continues
with the untouched remainder. -/
theorem C3_adjacent_code_merge :
    (∀ (indent : Nat) (pfx out : Span) (fuel : Nat) (np : Bool) (p next : Paragraph)
        (rest after : List Paragraph),
        p.empty = false →
        (p.Kind = ParagraphType.GDScript ∨ p.Kind = ParagraphType.CSharpCode) →
        rest.dropWhile (fun q => q.empty) = next :: after →
        IsDifferentLanguage p.Kind next.Kind = true →
        writeParasAux indent pfx (fuel+1) out np (p :: rest) =
          writeParasAux indent pfx fuel
            ((if np then out ++ ['\n'] else out) ++ mergedBlock indent p next) true after) ∧
    (∀ (indent : Nat) (pfx out : Span) (fuel : Nat) (np : Bool) (p next : Paragraph)
        (rest after : List Paragraph),
        p.empty = false →
        (p.Kind = ParagraphType.GDScript ∨ p.Kind = ParagraphType.CSharpCode) →
        rest.dropWhile (fun q => q.empty) = next :: after →
        IsDifferentLanguage p.Kind next.Kind = false →
        writeParasAux indent pfx (fuel+1) out np (p :: rest) =
          writeParasAux indent pfx fuel
            ((if np then out ++ ['\n'] else out) ++ codeBlock indent p) true rest) ∧
    (∀ (indent : Nat) (pfx out : Span) (fuel : Nat) (np : Bool) (p : Paragraph)
        (rest : List Paragraph),
        p.empty = false →
        (p.Kind = ParagraphType.GDScript ∨ p.Kind = ParagraphType.CSharpCode) →
        rest.dropWhile (fun q => q.empty) = [] →
        writeParasAux indent pfx (fuel+1) out np (p :: rest) =
          writeParasAux indent pfx fuel
            ((if np then out ++ ['\n'] else out) ++ codeBlock indent p) true rest) := by
  refine ⟨?_, ?_, ?_⟩
  · intro indent pfx out fuel np p next rest after hemp hkind hdrop hdiff
    rcases hkind with hk | hk <;>
    · rw [hk] at hdiff
      simp only [writeParasAux, hemp, Bool.false_eq_true, if_false, hk, hdrop, hdiff, if_true]
  · intro indent pfx out fuel np p next rest after hemp hkind hdrop hdiff
    rcases hkind with hk | hk <;>
    · rw [hk] at hdiff
      simp only [writeParasAux, hemp, Bool.false_eq_true, if_false, hk, hdrop, hdiff,
        Bool.false_eq_true, if_false]
  · intro indent pfx out fuel np p rest hemp hkind hdrop
    rcases hkind with hk | hk <;>
    · simp only [writeParasAux, hemp, Bool.false_eq_true, if_false, hk, hdrop]

theorem C3_adjacent_code_merge_witness :
    writeParasAux 0 [] (0+1) [] false
        [⟨[("var x = 1").data], ParagraphType.GDScript⟩,
         ⟨[("int x = 1;").data], ParagraphType.CSharpCode⟩] =
      writeParasAux 0 [] 0
        ((if false then ([] : Span) ++ ['\n'] else []) ++
          mergedBlock 0 ⟨[("var x = 1").data], ParagraphType.GDScript⟩
            ⟨[("int x = 1;").data], ParagraphType.CSharpCode⟩) true [] :=
  C3_adjacent_code_merge.1 0 [] [] 0 false
    ⟨[("var x = 1").data], ParagraphType.GDScript⟩
    ⟨[("int x = 1;").data], ParagraphType.CSharpCode⟩
    [⟨[("int x = 1;").data], ParagraphType.CSharpCode⟩] []
    (by decide) (by decide) (by decide) (by decide)

end GDExport
